import Mathlib

/-!
Verification of the Sumini "Pro Suno Architect" core (v8 service in
src/services/geminiService.ts and the send handler in src/App.tsx),
as a shallow embedding over `List Char` / `String`.

The embedding models JavaScript string primitives (regex extraction with
the five concrete patterns of `parseSongFromText`, `trim`, `split`,
`replace`, template literals) and the control flow of
`generateContentResponse` and `handleSend`.
-/

namespace Sumini

/-! ## JavaScript character classes

`jsWhite` is the character set matched by the regex class `\s` and
removed by `String.prototype.trim` (WhiteSpace ∪ LineTerminator).
`lineTerm` is the set NOT matched by the regex `.` (dotAll is off in
every regex of the source). -/

def jsWhite (c : Char) : Bool :=
  c == ' ' || c == '\t' || c == '\n' || c == Char.ofNat 11 || c == Char.ofNat 12 ||
  c == '\r' || c == Char.ofNat 0xa0 || c == Char.ofNat 0x1680 ||
  (Char.ofNat 0x2000 ≤ c && c ≤ Char.ofNat 0x200a) ||
  c == Char.ofNat 0x2028 || c == Char.ofNat 0x2029 || c == Char.ofNat 0x202f ||
  c == Char.ofNat 0x205f || c == Char.ofNat 0x3000 || c == Char.ofNat 0xfeff

def lineTerm (c : Char) : Bool :=
  c == '\n' || c == '\r' || c == Char.ofNat 0x2028 || c == Char.ofNat 0x2029

/-! ## Elementary substring machinery -/

/-- Bool test that `pat` is a prefix of `s` (by `==` on `Char`). -/
def pfx : List Char → List Char → Bool
  | [], _ => true
  | _ :: _, [] => false
  | a :: as, b :: bs => a == b && pfx as bs

/-- Index of the leftmost occurrence of `pat` in `s`, as a JS regex engine
finds the leftmost match of a literal. -/
def findIdx? (pat : List Char) : List Char → Option Nat
  | [] => if pfx pat [] then some 0 else none
  | s@(_ :: rest) => if pfx pat s then some 0 else (findIdx? pat rest).map (· + 1)

/-- Everything after the leftmost occurrence of `pat` in `s`. -/
def afterSub (pat s : List Char) : Option (List Char) :=
  (findIdx? pat s).map (fun i => s.drop (i + pat.length))

/-- Everything before the leftmost occurrence of `pat` in `s`. -/
def upToSub (pat s : List Char) : Option (List Char) :=
  (findIdx? pat s).map (fun i => s.take i)

def hasSub (pat s : List Char) : Bool := (findIdx? pat s).isSome

def hasSubS (pat s : String) : Bool := hasSub pat.data s.data

/-! ## JS `trim`, modelled as dropping `jsWhite` from both ends -/

def ltrim (s : List Char) : List Char := s.dropWhile jsWhite

def rtrim (s : List Char) : List Char := (s.reverse.dropWhile jsWhite).reverse

def trimL (s : List Char) : List Char := rtrim (ltrim s)

def jsTrim (s : String) : String := ⟨trimL s.data⟩

/-! ## The five section extractors of `parseSongFromText` (v8, lines 837-862)

Header literals, exactly as in the source regexes. -/

def hdrTitle : List Char := "## Title:".data
def hdrVoice : List Char := "## Voice:".data
def hdrTags : List Char := "## Tags:".data
def hdrStyle : List Char := "## Style:".data
def hdrLyrics : List Char := "## Lyrics:".data

/-- Backtracking matcher for the regex tail after the Title header,
namely the JS fragment matching of the v8 source.
The engine first lets the greedy whitespace run consume `k` characters
(starting from the maximal whitespace run), then the one-or-more
any-but-line-terminator group must capture a maximal nonempty run; on
failure the whitespace run backtracks by one.  `goDot r k` is that loop
with `r` the text following the header literal. -/
def goDot (r : List Char) : Nat → Option (List Char)
  | 0 =>
    match r with
    | [] => none
    | c :: cs =>
      if lineTerm c then none
      else some ((c :: cs).takeWhile (fun x => !lineTerm x))
  | k + 1 =>
    match r.drop (k + 1) with
    | [] => goDot r k
    | c :: cs =>
      if lineTerm c then goDot r k
      else some ((c :: cs).takeWhile (fun x => !lineTerm x))

/-- Capture group of the v8 Title regex.
The JS engine would retry the literal at later indices when the
tail match fails, but a failed tail means every character after the
leftmost occurrence of the header literal is a line terminator, so no
later occurrence of the (terminator-free) literal can exist; matching at
the leftmost occurrence only is therefore exact. -/
def titleCapture (s : List Char) : Option (List Char) :=
  match afterSub hdrTitle s with
  | none => none
  | some r => goDot r (r.takeWhile jsWhite).length

/-- Capture group of a lazy middle section regex with a lookahead for the
next header, i.e. the shape of the v8 Voice/Tags/Style regexes.
The greedy whitespace run consumes the maximal whitespace after the
header (the next header starts with a non-whitespace character, so it
cannot begin inside that run), and the lazy group then stops at the first
occurrence of the lookahead literal; if the lookahead literal never
occurs after the leftmost header occurrence it occurs after no later one
either, so the whole match fails. -/
def sectionBlock (hdr nextHdr s : List Char) : Option (List Char) :=
  match afterSub hdr s with
  | none => none
  | some r => upToSub nextHdr (r.dropWhile jsWhite)

/-- Capture group of the v8 Lyrics regex:
everything after the header and its following whitespace run. -/
def lyricsCapture (s : List Char) : Option (List Char) :=
  (afterSub hdrLyrics s).map (fun r => r.dropWhile jsWhite)

/-! ## Tag splitting (v8 lines 855-859) -/

/-- The global replace of the source. -/
def nlToComma (s : List Char) : List Char :=
  s.map (fun c => if c == '\n' then ',' else c)

def consHead (c : Char) : List (List Char) → List (List Char)
  | [] => [[c]]
  | p :: ps => (c :: p) :: ps

/-- JS `split(",")`: pieces between commas, empty pieces kept. -/
def splitComma : List Char → List (List Char)
  | [] => [[]]
  | c :: cs => if c == ',' then [] :: splitComma cs else consHead c (splitComma cs)

/-- The tag pipeline `rawTags.replace(/\n/g, ",").split(",").map(trim).filter(Boolean)`. -/
def tagsOfL (raw : List Char) : List (List Char) :=
  ((splitComma (nlToComma raw)).map trimL).filter (fun p => !p.isEmpty)

def tagsOfS (raw : String) : List String := (tagsOfL raw.data).map (⟨·⟩)

/-- Modelled from the spec: "split on comma AND on line breaks (both
delimiters must be treated as separators), each piece trimmed, empty
pieces dropped".  A single pass splitting on either delimiter, used to
compare against the source pipeline `tagsOfL`. -/
def splitDelims : List Char → List (List Char)
  | [] => [[]]
  | c :: cs =>
    if c == ',' || c == '\n' then [] :: splitDelims cs else consHead c (splitDelims cs)

def tagSplitSpec (raw : List Char) : List (List Char) :=
  ((splitDelims raw).map trimL).filter (fun p => !p.isEmpty)

/-! ## The parser (v8 `parseSongFromText`) -/

def notSpecified : List Char := "Not specified".data

/-- `text.match(/## Title:\s*(.+)/)?.[1]?.trim()` -/
def titleVal (s : List Char) : Option (List Char) := (titleCapture s).map trimL

/-- `text.match(/## Voice:\s*([\s\S]*?)(?=## Tags:)/)?.[1]?.trim() ?? "Not specified"` -/
def voiceVal (s : List Char) : List Char :=
  ((sectionBlock hdrVoice hdrTags s).map trimL).getD notSpecified

/-- `text.match(/## Tags:\s*([\s\S]*?)(?=## Style:)/)?.[1]?.trim()` -/
def rawTagsVal (s : List Char) : Option (List Char) :=
  (sectionBlock hdrTags hdrStyle s).map trimL

/-- `text.match(/## Style:\s*([\s\S]*?)(?=## Lyrics:)/)?.[1]?.trim()` -/
def styleVal (s : List Char) : Option (List Char) :=
  (sectionBlock hdrStyle hdrLyrics s).map trimL

/-- `text.match(/## Lyrics:\s*([\s\S]*)/)?.[1]?.trim()` -/
def lyricsVal (s : List Char) : Option (List Char) :=
  (lyricsCapture s).map trimL

structure ParsedSongL where
  title : List Char
  voice : List Char
  style : List Char
  tags : List (List Char)
  lyrics : List Char
deriving DecidableEq

/-- `parseSongFromText`, list-of-chars core.  The guard
`if (!title || !style || !lyrics) return null` fires on a missing match
and on an empty trimmed capture alike; `voice` and `tags` are computed
from pure expressions, so evaluating them before or after the guard is
indistinguishable, and `tags` falls back to `[]` when the Tags capture is
absent (`?? []`). -/
def parseSongL (s : List Char) : Option ParsedSongL :=
  match titleVal s, styleVal s, lyricsVal s with
  | some t, some st, some ly =>
    if t.isEmpty || st.isEmpty || ly.isEmpty then none
    else
      some { title := t, voice := voiceVal s, style := st,
             tags := (rawTagsVal s).elim [] tagsOfL, lyrics := ly }
  | _, _, _ => none

structure ParsedSong where
  title : String
  voice : String
  style : String
  tags : List String
  lyrics : String
deriving DecidableEq

/-- `parseSongFromText`, `String`-level interface. -/
def parseSongFromText (text : String) : Option ParsedSong :=
  (parseSongL text.data).map fun p =>
    { title := ⟨p.title⟩, voice := ⟨p.voice⟩, style := ⟨p.style⟩,
      tags := p.tags.map (⟨·⟩), lyrics := ⟨p.lyrics⟩ }

/-! ## Generator pipeline (`generateContentResponse`, v8 lines 706-832)

The closed enumerations come from `../types` (not under src/); the member
names below are the ones the source dereferences. -/

inductive GeneratorMode
  | NORMAL | RANDOM | CRAZY | TRENDING | KPOP_RANDOM | KPOP_3_VOICES | THINKING
deriving DecidableEq

inductive LyricsLanguage
  | ENGLISH | ARABIC | MIXED
deriving DecidableEq

structure VocalSettings where
  gender : String
  texture : String
deriving DecidableEq

structure MoodSettings where
  darkBright : Nat
  cleanGritty : Nat
  energy : Nat

/-- `StudioSettings`; the source field named by the TS keywordish name
`structure` is rendered `structTemplate` here (Lean keyword). -/
structure StudioSettings where
  mood : MoodSettings
  vocal : VocalSettings
  structTemplate : String

/-- The entry map carried by the v8 `modePrompts` object literal. -/
def modePrompts : GeneratorMode → Option String
  | .RANDOM => some "Create a commercially strong hit with an unforgettable hook."
  | .CRAZY => some "Fuse incompatible genres into an experimental but coherent track."
  | .KPOP_RANDOM => some "Create a top-tier K-Pop song with strong English hooks."
  | .KPOP_3_VOICES => some "Create a K-Pop trio. Use strict bracketed singer tags."
  | .TRENDING => some "Search current 2024–2025 viral music trends and write a hit."
  | .THINKING => some "Compose a complex, layered musical masterpiece."
  | .NORMAL => none

/-- The `TRENDING` property value of the object literal is an
immediately-invoked closure that assigns the
outer mutable `useSearch` and returns the trending directive.  Its input
is the current value of the flag; the assignment ignores it. -/
def trendingIIFE (_useSearch : Bool) : Bool × String :=
  (true, "Search current 2024–2025 viral music trends and write a hit.")

/-- Evaluating the object literal `const modePrompts = { ... }` evaluates
every property value, so it runs `trendingIIFE` whatever `mode` later
gets looked up; it returns the updated flag plus the entry map. -/
def evalModePromptsLiteral (useSearch : Bool) : Bool × (GeneratorMode → Option String) :=
  let (useSearch, _trendingText) := trendingIIFE useSearch
  (useSearch, modePrompts)

/-- The mode block of `generateContentResponse`:
`let finalPrompt = prompt; let useSearch = false;` followed by the object
literal evaluation and
`if (modePrompts[mode]) finalPrompt = mode === THINKING && prompt.trim() ? prompt : modePrompts[mode]`.
Every canned directive string is nonempty, hence truthy.  Returns
(finalPrompt, useSearch). -/
def modeStep (mode : GeneratorMode) (prompt : String) : String × Bool :=
  let finalPrompt := prompt
  let useSearch := false
  let (useSearch, prompts) := evalModePromptsLiteral useSearch
  match prompts mode with
  | some canned =>
    (if mode == .THINKING && !(jsTrim prompt).isEmpty then prompt else canned, useSearch)
  | none => (finalPrompt, useSearch)

/-- The directive portion of the composed prompt. -/
def modeDirective (mode : GeneratorMode) (prompt : String) : String :=
  (modeStep mode prompt).1

/-- Mood translation block (v8 lines 750-764); `structure.includes("EDM")`
is a substring test. -/
def moodDesc (mood : MoodSettings) (structTemplate : String) : List String :=
  (if mood.darkBright < 30 then ["Dark, Minor Key"]
   else if mood.darkBright > 70 then ["Bright, Major Key"] else [])
  ++ (if mood.cleanGritty > 70 then ["Gritty, Saturated, Lo-fi"]
      else if mood.cleanGritty < 30 then ["Clean, Polished"] else [])
  ++ (if mood.energy > 70 then
        [if hasSubS "EDM" structTemplate then "Festival Energy, Big Drops"
         else "High Energy, Aggressive Groove"]
      else if mood.energy < 30 then ["Chill, Ambient, Low Energy"] else [])

/-- v8 lines 767-770: the template interpolates `vocal.texture` and
`vocal.gender` unconditionally once the guard fires. -/
def vocalConstraint (vocal : VocalSettings) : String :=
  if vocal.gender != "Any" || vocal.texture != "Any" then
    "[CONSTRAINT: Voice must be " ++ vocal.texture ++ " " ++ vocal.gender ++ "]"
  else ""

/-- v8 lines 772-775. -/
def structureConstraint (structTemplate : String) : String :=
  if structTemplate != "Auto" then
    "[CONSTRAINT: Use strict " ++ structTemplate ++ " structure]"
  else ""

/-- v8 lines 777-782: nested conditional keyed on the language enum. -/
def langConstraint : LyricsLanguage → String
  | .ARABIC => "Lyrics strictly in ARABIC (Egyptian/Gulf). Style & Tags in ENGLISH."
  | .MIXED => "Lyrics in Arabic + English mix. Style & Tags in ENGLISH."
  | .ENGLISH => "Lyrics in ENGLISH only."

/-- The part of the v8 settings template literal before the language
line (`moodDesc.join(", ") || "Balanced"` falls back on the empty
join). -/
def settingsPre (settings : StudioSettings) : String :=
  let tone := String.intercalate ", " (moodDesc settings.mood settings.structTemplate)
  "\n=== STUDIO SETTINGS ===\nTone: " ++ (if tone.isEmpty then "Balanced" else tone)
  ++ "\n" ++ vocalConstraint settings.vocal
  ++ "\n" ++ structureConstraint settings.structTemplate
  ++ "\n"

/-- The part of the v8 settings template literal after the language
line. -/
def settingsPost (isRadioEdit hasIntro : Bool) : String :=
  "\n" ++ (if hasIntro then "Include [Instrumental Intro]" else "")
  ++ "\n" ++ (if isRadioEdit then "Keep under 3 minutes (Radio Edit)" else "")
  ++ "\n\n[CRITICAL OUTPUT RULE]\nBPM and Musical Key MUST appear inside ## Tags.\n"

/-- v8 lines 785-796, the template literal appended to `finalPrompt`. -/
def settingsBlock (settings : StudioSettings) (isRadioEdit hasIntro : Bool)
    (lyricsLanguage : LyricsLanguage) : String :=
  settingsPre settings ++ ("Language: " ++ langConstraint lyricsLanguage)
    ++ settingsPost isRadioEdit hasIntro

/-- The outbound text: directive (or preserved user text) plus the
studio-settings block. -/
def composedPrompt (mode : GeneratorMode) (prompt : String) (settings : StudioSettings)
    (isRadioEdit hasIntro : Bool) (lyricsLanguage : LyricsLanguage) : String :=
  modeDirective mode prompt ++ settingsBlock settings isRadioEdit hasIntro lyricsLanguage

/-- Model selection (v8 lines 799-806). -/
def pickModelName (modelPreference : String) (mode : GeneratorMode) : String :=
  let m := if modelPreference == "quality" then "gemini-3-pro-preview" else "gemini-2.5-flash"
  if mode == .THINKING then "gemini-3-pro-preview" else m

/-! ## Transport attempts and the fallback retry (v8 lines 808-831) -/

inductive CallResult
  | ok (text : String)
  | err (e : Nat)
deriving DecidableEq

/-- A session as created by `createSession(model, enableTools)`: the model
name and whether the googleSearch tool is attached. -/
structure Session where
  model : String
  tools : Bool
deriving DecidableEq

/-- The try/catch of `generateContentResponse`: first attempt on the
chosen model with the search flag; on a thrown error, rethrow unchanged
when `signal?.aborted`, otherwise create one fallback session on
"gemini-2.5-flash" without tools and surface whatever it returns.  `send`
is the environment (what each `chat.sendMessage` does); the returned list
records the sessions actually used, in order. -/
def sendAttempts (send : Session → CallResult) (modelName : String)
    (useSearch : Bool) (aborted : Bool) : Except Nat String × List Session :=
  let first : Session := ⟨modelName, useSearch⟩
  match send first with
  | .ok t => (.ok t, [first])
  | .err e =>
    if aborted then (.error e, [first])
    else
      let fb : Session := ⟨"gemini-2.5-flash", false⟩
      match send fb with
      | .ok t => (.ok t, [first, fb])
      | .err e2 => (.error e2, [first, fb])

/-! ## UI send handler (`handleSend`, src/App.tsx lines 201-281)

Event-level model of the async interleavings.  A `send` event is the
synchronous front half of `handleSend` after its early-return guards: it
aborts the in-flight controller, installs a fresh controller and appends
the user message.  A `settle` event is the continuation that runs when
that request's promise resolves or rejects: on success the model reply is
appended only if the request's own controller was never aborted and the
reply text is nonempty; on failure (or cancellation surfacing as a
rejection) nothing is appended; the finally block clears the slot only
when it still holds this request's controller. -/

inductive Role
  | user | model
deriving DecidableEq

structure Msg where
  role : Role
  reqId : Nat
  content : String
deriving DecidableEq

inductive FinishKind
  | success (replyText : String)
  | failure
deriving DecidableEq

inductive UiEvent
  | send (id : Nat) (userText : String)
  | settle (id : Nat) (k : FinishKind)
deriving DecidableEq

structure UiState where
  history : List Msg
  current : Option Nat
  abortedIds : List Nat
deriving DecidableEq

def uiStep (s : UiState) : UiEvent → UiState
  | .send id txt =>
    let abortedIds :=
      match s.current with
      | some c => c :: s.abortedIds
      | none => s.abortedIds
    { history := s.history ++ [⟨.user, id, txt⟩], current := some id,
      abortedIds := abortedIds }
  | .settle id k =>
    let s' :=
      match k with
      | .success reply =>
        if id ∈ s.abortedIds then s
        else if reply != "" then
          { s with history := s.history ++ [⟨.model, id, reply⟩] }
        else s
      | .failure => s
    if s'.current = some id then { s' with current := none } else s'

def runUi (s : UiState) (es : List UiEvent) : UiState := es.foldl uiStep s

/-- The model-reply messages attributed to request `a`. -/
def modelMsgs (a : Nat) (h : List Msg) : List Msg :=
  h.filter (fun m => m.role == Role.model && m.reqId == a)

/-! ## Round-trip template and its well-formedness side conditions -/

/-- The section marker every header literal starts with. -/
def mkr : List Char := "## ".data

/-- `noMkr f` holds when no suffix of `f` starts with the marker "## ";
none of the five section headers can then start inside `f`. -/
def noMkr : List Char → Bool
  | [] => true
  | c :: r => !pfx mkr (c :: r) && noMkr r

/-- `clashAt pat frag`: `pat` and `frag` disagree at some position of
their common length, so `pat` cannot be a prefix of `frag ++ z` for any
`z`. -/
def clashAt : List Char → List Char → Bool
  | p :: ps, f :: fs => p != f || clashAt ps fs
  | _, _ => false

/-- Decidable check that `pat` starts at no position inside the literal
`lit`, whatever text follows it. -/
def litBlocks (pat : List Char) : List Char → Bool
  | [] => true
  | l@(_ :: rest) => clashAt pat l && litBlocks pat rest

/-- `pat` starts at no position strictly inside `a` when `a` is followed
by `b`. -/
def noOcc (pat a b : List Char) : Prop :=
  ∀ i, i < a.length → pfx pat (a.drop i ++ b) = false

/-- A reply text assembled from ParsedSong-shaped fields by inserting the
five section headers in the canonical order of the output contract. -/
def renderSongL (t v tg st ly : List Char) : List Char :=
  "## Title: ".data ++ t ++ "\n\n## Voice:\n".data ++ v ++ "\n\n## Tags:\n".data ++ tg
    ++ "\n\n## Style:\n".data ++ st ++ "\n\n## Lyrics:\n".data ++ ly

/-! # Helper lemmas -/

theorem strData_append (a b : String) : (a ++ b).data = a.data ++ b.data := rfl

theorem str_ne_empty_of_data (a : String) (h : a.data ≠ []) : a ≠ "" :=
  fun hc => h (by rw [hc])

theorem strAppend4_ne_empty (a b c d e : String) (ha : a.data ≠ []) :
    a ++ b ++ c ++ d ++ e ≠ "" := by
  apply str_ne_empty_of_data
  simp [strData_append, ha]

theorem pfx_append_self (pat z : List Char) : pfx pat (pat ++ z) = true := by
  induction pat with
  | nil => rfl
  | cons a as ih => simp [pfx, ih]

theorem findIdx?_of_pfx {pat s : List Char} (h : pfx pat s = true) :
    findIdx? pat s = some 0 := by
  cases s <;> simp [findIdx?, h]

theorem hasSub_part (pat x y s : List Char) (hs : s = x ++ (pat ++ y)) :
    hasSub pat s = true := by
  subst hs
  induction x with
  | nil => simp [hasSub, findIdx?_of_pfx (pfx_append_self pat y)]
  | cons c cs ih =>
    cases h : pfx pat (c :: (cs ++ (pat ++ y)))
    · simp only [hasSub] at ih
      simp [hasSub, findIdx?, h, ih]
    · simp [hasSub, findIdx?, h]

/-! # Claim theorems

Each claim of the specification audit gets exactly one theorem below
(plus, where the claim fails on the code, a closed counterexample). -/

/-! ## C5: mode exclusivity of the request assembler -/

/-- C5 (counterexample).  The claim says every mode except THINKING maps
to a fixed canned directive that replaces the user text.  NORMAL is a
second exception: it has no canned directive and passes the user text
through unchanged, so its directive varies with the user input. -/
theorem mode_directive_cex :
    GeneratorMode.NORMAL ≠ GeneratorMode.THINKING ∧
    modeDirective GeneratorMode.NORMAL "synthwave about rain" = "synthwave about rain" ∧
    modeDirective GeneratorMode.NORMAL "a capella hymn" = "a capella hymn" ∧
    ("synthwave about rain" : String) ≠ "a capella hymn" :=
  ⟨by decide, rfl, rfl, by decide⟩

/-- C5 (amended).  Five of the seven modes (RANDOM, CRAZY, KPOP_RANDOM,
KPOP_3_VOICES, TRENDING) map to fixed canned directives that replace the
user text; THINKING uses the user text verbatim when its trim is
nonempty and falls back to its canned directive otherwise; NORMAL always
uses the user text verbatim. -/
theorem mode_directive_amended (prompt : String) :
    modeDirective GeneratorMode.RANDOM prompt
      = "Create a commercially strong hit with an unforgettable hook." ∧
    modeDirective GeneratorMode.CRAZY prompt
      = "Fuse incompatible genres into an experimental but coherent track." ∧
    modeDirective GeneratorMode.KPOP_RANDOM prompt
      = "Create a top-tier K-Pop song with strong English hooks." ∧
    modeDirective GeneratorMode.KPOP_3_VOICES prompt
      = "Create a K-Pop trio. Use strict bracketed singer tags." ∧
    modeDirective GeneratorMode.TRENDING prompt
      = "Search current 2024–2025 viral music trends and write a hit." ∧
    modeDirective GeneratorMode.NORMAL prompt = prompt ∧
    ((jsTrim prompt).isEmpty = false →
      modeDirective GeneratorMode.THINKING prompt = prompt) ∧
    ((jsTrim prompt).isEmpty = true →
      modeDirective GeneratorMode.THINKING prompt
        = "Compose a complex, layered musical masterpiece.") := by
  refine ⟨rfl, rfl, rfl, rfl, rfl, rfl, fun h => ?_, fun h => ?_⟩ <;>
    simp [modeDirective, modeStep, evalModePromptsLiteral, trendingIIFE, modePrompts, h]

theorem mode_directive_amended_witness :
    (jsTrim "an oud ballad").isEmpty = false ∧
    modeDirective GeneratorMode.THINKING "an oud ballad" = "an oud ballad" :=
  ⟨by decide, (mode_directive_amended "an oud ballad").2.2.2.2.2.2.1 (by decide)⟩

/-! ## C6: the search-capability flag -/

/-- C6.  The claim says the search flag is true exactly for TRENDING.
In the code the TRENDING entry of the `modePrompts` object literal is an
immediately-invoked closure, and evaluating the literal runs it on every
call, so the flag passed to `createSession` is true for every mode; in
particular for NORMAL, which is not TRENDING. -/
theorem useSearch_always_true :
    (∀ (mode : GeneratorMode) (prompt : String), (modeStep mode prompt).2 = true) ∧
    (modeStep GeneratorMode.NORMAL "a quiet piano piece").2 = true ∧
    GeneratorMode.NORMAL ≠ GeneratorMode.TRENDING := by
  refine ⟨fun mode prompt => ?_, rfl, by decide⟩
  cases mode <;> rfl

/-! ## C7: the language clause -/

/-- C7 (counterexample).  The claim says the emitted clause states, for
every language choice, that tags/style must remain English;
the English clause contains no such statement (no "Tags" at all). -/
theorem language_clause_cex :
    langConstraint LyricsLanguage.ENGLISH = "Lyrics in ENGLISH only." ∧
    hasSubS "Style & Tags" (langConstraint LyricsLanguage.ENGLISH) = false ∧
    hasSubS "Tags" (langConstraint LyricsLanguage.ENGLISH) = false :=
  ⟨rfl, by decide, by decide⟩

/-- C7 (amended).  Exactly one language clause is always emitted into
the composed prompt, chosen from three fixed sentences keyed by the
language enum; the Arabic and Mixed clauses state that Style & Tags stay
in English, while the English clause only prescribes English lyrics. -/
theorem language_clause_amended (lang : LyricsLanguage) (mode : GeneratorMode)
    (prompt : String) (settings : StudioSettings) (isRadioEdit hasIntro : Bool) :
    (langConstraint lang = "Lyrics in ENGLISH only."
      ∨ langConstraint lang = "Lyrics strictly in ARABIC (Egyptian/Gulf). Style & Tags in ENGLISH."
      ∨ langConstraint lang = "Lyrics in Arabic + English mix. Style & Tags in ENGLISH.") ∧
    (lang ≠ LyricsLanguage.ENGLISH →
      hasSubS "Style & Tags in ENGLISH." (langConstraint lang) = true) ∧
    hasSubS ("Language: " ++ langConstraint lang)
      (composedPrompt mode prompt settings isRadioEdit hasIntro lang) = true := by
  refine ⟨?_, fun h => ?_, ?_⟩
  · cases lang <;> simp [langConstraint]
  · cases lang <;> first | exact absurd rfl h | decide
  · exact hasSub_part _ ((modeDirective mode prompt).data ++ (settingsPre settings).data)
      ((settingsPost isRadioEdit hasIntro).data) _
      (by simp [composedPrompt, settingsBlock, hasSubS, strData_append, List.append_assoc])

theorem language_clause_amended_witness :
    LyricsLanguage.ARABIC ≠ LyricsLanguage.ENGLISH ∧
    hasSubS "Style & Tags in ENGLISH." (langConstraint LyricsLanguage.ARABIC) = true :=
  ⟨by decide,
    (language_clause_amended LyricsLanguage.ARABIC GeneratorMode.NORMAL "x"
      ⟨⟨50, 50, 50⟩, ⟨"Any", "Any"⟩, "Auto"⟩ false false).2.1 (by decide)⟩

/-! ## C8: the vocal constraint clause -/

/-- C8 (counterexample).  The claim says a field left at the "Any"
default does not appear in the clause text; with gender "Male" and
texture "Any" the v8 clause interpolates the texture verbatim, so the
literal "Any" does appear. -/
theorem vocal_clause_cex :
    vocalConstraint ⟨"Male", "Any"⟩ = "[CONSTRAINT: Voice must be Any Male]" ∧
    hasSubS "Any" (vocalConstraint ⟨"Male", "Any"⟩) = true ∧
    ("Male" : String) ≠ "Any" :=
  ⟨by decide, by decide, by decide⟩

/-- C8 (amended).  The clause is emitted iff gender or texture is
non-default, and when emitted it is the single bracketed sentence
interpolating both texture and gender verbatim, including the literal
"Any" for a field left at the default. -/
theorem vocal_clause_amended (g t : String) :
    (vocalConstraint ⟨g, t⟩ = "" ↔ g = "Any" ∧ t = "Any") ∧
    (¬(g = "Any" ∧ t = "Any") →
      vocalConstraint ⟨g, t⟩ = "[CONSTRAINT: Voice must be " ++ t ++ " " ++ g ++ "]") := by
  have hval : ¬(g = "Any" ∧ t = "Any") →
      vocalConstraint ⟨g, t⟩ = "[CONSTRAINT: Voice must be " ++ t ++ " " ++ g ++ "]" := by
    intro h
    have hcond : (g != "Any" || t != "Any") = true := by
      rcases not_and_or.mp h with h' | h' <;> simp [h']
    simp [vocalConstraint, hcond]
  refine ⟨⟨fun hE => ?_, fun hgt => ?_⟩, hval⟩
  · by_contra hc
    rw [hval hc] at hE
    exact strAppend4_ne_empty _ _ _ _ _ (by decide) hE
  · simp [vocalConstraint, hgt.1, hgt.2]

theorem vocal_clause_amended_witness :
    ¬(("Female" : String) = "Any" ∧ ("Raspy" : String) = "Any") ∧
    vocalConstraint ⟨"Female", "Raspy"⟩ = "[CONSTRAINT: Voice must be Raspy Female]" :=
  ⟨by decide, (vocal_clause_amended "Female" "Raspy").2 (by decide)⟩

/-! ## C9: the fallback retry policy -/

/-- C9.  When the first model call fails and the request was not
aborted, exactly one fallback session is created, on "gemini-2.5-flash"
without tools, and its outcome (success or the second failure) is what
surfaces; when the request was aborted, the original error propagates
unchanged and no second session is created. -/
theorem fallback_retry_policy (send : Session → CallResult) (modelName : String)
    (useSearch : Bool) (e : Nat)
    (h : send ⟨modelName, useSearch⟩ = CallResult.err e) :
    (sendAttempts send modelName useSearch true
        = (Except.error e, [⟨modelName, useSearch⟩])) ∧
    ((sendAttempts send modelName useSearch false).2
        = [⟨modelName, useSearch⟩, ⟨"gemini-2.5-flash", false⟩]) ∧
    (∀ r, send ⟨"gemini-2.5-flash", false⟩ = CallResult.ok r →
      (sendAttempts send modelName useSearch false).1 = Except.ok r) ∧
    (∀ e2, send ⟨"gemini-2.5-flash", false⟩ = CallResult.err e2 →
      (sendAttempts send modelName useSearch false).1 = Except.error e2) := by
  refine ⟨by simp [sendAttempts, h], ?_, fun r hr => ?_, fun e2 h2 => ?_⟩
  · cases hfb : send ⟨"gemini-2.5-flash", false⟩ <;> simp [sendAttempts, h, hfb]
  · simp [sendAttempts, h, hr]
  · simp [sendAttempts, h, h2]

/-! ## C10: conversation history safety -/

theorem runUi_nil (s : UiState) : runUi s [] = s := rfl

theorem runUi_cons (s : UiState) (e : UiEvent) (es : List UiEvent) :
    runUi s (e :: es) = runUi (uiStep s e) es := rfl

theorem uiStep_settle_abortedIds (s : UiState) (id : Nat) (k : FinishKind) :
    (uiStep s (UiEvent.settle id k)).abortedIds = s.abortedIds := by
  cases k <;> simp only [uiStep] <;> split_ifs <;> rfl

theorem uiStep_aborted_mono (s : UiState) (e : UiEvent) (a : Nat)
    (ha : a ∈ s.abortedIds) : a ∈ (uiStep s e).abortedIds := by
  cases e with
  | send id txt => cases hc : s.current <;> simp [uiStep, hc, ha]
  | settle id k => rw [uiStep_settle_abortedIds]; exact ha

theorem uiStep_modelMsgs (s : UiState) (e : UiEvent) (a : Nat)
    (ha : a ∈ s.abortedIds) :
    modelMsgs a (uiStep s e).history = modelMsgs a s.history := by
  cases e with
  | send id txt =>
    cases hc : s.current <;>
      simp [uiStep, hc, modelMsgs, List.filter_append]
  | settle id k =>
    cases k with
    | failure => simp only [uiStep]; split_ifs <;> rfl
    | success reply =>
      by_cases hid : id ∈ s.abortedIds
      · simp only [uiStep, if_pos hid]; split_ifs <;> rfl
      · have hne : (id == a) = false := by
          simp only [beq_eq_false_iff_ne, ne_eq]
          intro h; exact hid (h ▸ ha)
        by_cases hr : (reply != "") = true
        · simp only [uiStep, if_neg hid, if_pos hr]
          split_ifs <;> simp [modelMsgs, List.filter_append, hne]
        · simp only [uiStep, if_neg hid, if_neg hr]
          split_ifs <;> rfl

theorem runUi_modelMsgs (es : List UiEvent) (s : UiState) (a : Nat)
    (ha : a ∈ s.abortedIds) :
    modelMsgs a (runUi s es).history = modelMsgs a s.history := by
  induction es generalizing s with
  | nil => rfl
  | cons e es ih =>
    rw [runUi_cons, ih (uiStep s e) (uiStep_aborted_mono s e a ha),
      uiStep_modelMsgs s e a ha]

/-- C10.  Issuing a new request first aborts the in-flight controller;
once a request's controller is aborted, its model reply is never
appended to the history by any later events; a failed request appends
nothing; and a successful, never-aborted, nonempty reply appends exactly
its one model message. -/
theorem history_append_safety (s : UiState) (es : List UiEvent) (a b : Nat)
    (txt reply : String) :
    (∀ c, s.current = some c → c ∈ (uiStep s (UiEvent.send b txt)).abortedIds) ∧
    (a ∈ s.abortedIds → modelMsgs a (runUi s es).history = modelMsgs a s.history) ∧
    ((uiStep s (UiEvent.settle a FinishKind.failure)).history = s.history) ∧
    (a ∉ s.abortedIds → reply ≠ "" →
      (uiStep s (UiEvent.settle a (FinishKind.success reply))).history
        = s.history ++ [⟨Role.model, a, reply⟩]) := by
  refine ⟨fun c hc => by simp [uiStep, hc], fun ha => runUi_modelMsgs es s a ha, ?_, ?_⟩
  · simp only [uiStep]; split_ifs <;> rfl
  · intro ha hr
    have hr' : (reply != "") = true := by simpa using hr
    simp only [uiStep, if_neg ha, if_pos hr']
    split_ifs <;> rfl

theorem history_append_safety_witness :
    (0 : Nat) ∈ (⟨[], some 1, [0]⟩ : UiState).abortedIds ∧
    modelMsgs 0 (runUi ⟨[], some 1, [0]⟩
      [UiEvent.settle 0 (FinishKind.success "stale reply")]).history
      = modelMsgs 0 (⟨[], some 1, [0]⟩ : UiState).history :=
  ⟨by decide,
    (history_append_safety ⟨[], some 1, [0]⟩
      [UiEvent.settle 0 (FinishKind.success "stale reply")] 0 2 "x" "y").2.1 (by decide)⟩

theorem fallback_retry_policy_witness :
    (fun _ : Session => CallResult.err 7) ⟨"gemini-3-pro-preview", true⟩ = CallResult.err 7 ∧
    sendAttempts (fun _ => CallResult.err 7) "gemini-3-pro-preview" true true
      = (Except.error 7, [⟨"gemini-3-pro-preview", true⟩]) :=
  ⟨rfl, (fallback_retry_policy (fun _ => CallResult.err 7) "gemini-3-pro-preview" true 7 rfl).1⟩

/-! ## Parser plumbing lemmas -/

theorem hasSub_of_afterSub {pat s : List Char} {r : List Char}
    (h : afterSub pat s = some r) : hasSub pat s = true := by
  unfold afterSub at h
  unfold hasSub
  cases hf : findIdx? pat s
  · rw [hf] at h; exact Option.noConfusion h
  · rfl

theorem hasSub_title_of_capture {s r : List Char} (h : titleCapture s = some r) :
    hasSub hdrTitle s = true := by
  unfold titleCapture at h
  cases ha : afterSub hdrTitle s
  · rw [ha] at h; exact Option.noConfusion h
  · exact hasSub_of_afterSub ha

theorem hasSub_of_sectionBlock {hdr nxt s r : List Char}
    (h : sectionBlock hdr nxt s = some r) : hasSub hdr s = true := by
  unfold sectionBlock at h
  cases ha : afterSub hdr s
  · rw [ha] at h; exact Option.noConfusion h
  · exact hasSub_of_afterSub ha

theorem hasSub_of_lyricsCapture {s r : List Char} (h : lyricsCapture s = some r) :
    hasSub hdrLyrics s = true := by
  unfold lyricsCapture at h
  cases ha : afterSub hdrLyrics s
  · rw [ha] at h; exact Option.noConfusion h
  · exact hasSub_of_afterSub ha

theorem parseSongL_none_of (s : List Char)
    (h : titleVal s = none ∨ titleVal s = some [] ∨ styleVal s = none
      ∨ styleVal s = some [] ∨ lyricsVal s = none ∨ lyricsVal s = some []) :
    parseSongL s = none := by
  unfold parseSongL
  rcases ht : titleVal s with _ | t <;> rcases hst : styleVal s with _ | st <;>
    rcases hly : lyricsVal s with _ | ly <;> simp_all <;>
    rcases h with h | h | h <;> simp [h]

/-- Inverting a successful list-level parse. -/
theorem parseSongL_fields (s : List Char) (p : ParsedSongL)
    (hp : parseSongL s = some p) :
    p.title ≠ [] ∧ p.style ≠ [] ∧ p.lyrics ≠ [] ∧
    titleVal s = some p.title ∧ styleVal s = some p.style ∧
    lyricsVal s = some p.lyrics ∧ p.voice = voiceVal s ∧
    p.tags = (rawTagsVal s).elim [] tagsOfL := by
  unfold parseSongL at hp
  split at hp
  · rename_i t st ly ht hst hly
    split at hp
    · exact Option.noConfusion hp
    · rename_i hE
      simp only [Option.some.injEq] at hp
      subst hp
      simp only [Bool.not_eq_true, Bool.or_eq_false_iff] at hE
      obtain ⟨⟨h1, h2⟩, h3⟩ := hE
      refine ⟨?_, ?_, ?_, ht, hst, hly, rfl, rfl⟩
      · show t ≠ []
        intro hn; rw [hn] at h1; simp at h1
      · show st ≠ []
        intro hn; rw [hn] at h2; simp at h2
      · show ly ≠ []
        intro hn; rw [hn] at h3; simp at h3
  · exact Option.noConfusion hp

theorem parseSongFromText_some (text : String) (song : ParsedSong)
    (h : parseSongFromText text = some song) :
    ∃ p, parseSongL text.data = some p ∧
      song = ⟨⟨p.title⟩, ⟨p.voice⟩, ⟨p.style⟩, p.tags.map (⟨·⟩), ⟨p.lyrics⟩⟩ := by
  unfold parseSongFromText at h
  rcases hp : parseSongL text.data with _ | p <;> rw [hp] at h
  · exact Option.noConfusion h
  · simp only [Option.map_some', Option.some.injEq] at h
    exact ⟨p, rfl, h.symm⟩

/-! ## C1: the all-or-nothing validation gate -/

/-- C1.  A successful parse always carries nonempty title, style and
lyrics; if any of the three resolves to absent or empty the whole parse
returns nothing; and a reply without the Title header never parses. -/
theorem parse_all_or_nothing (text : String) :
    (∀ song, parseSongFromText text = some song →
      song.title ≠ "" ∧ song.style ≠ "" ∧ song.lyrics ≠ "") ∧
    ((titleVal text.data = none ∨ titleVal text.data = some []
      ∨ styleVal text.data = none ∨ styleVal text.data = some []
      ∨ lyricsVal text.data = none ∨ lyricsVal text.data = some []) →
      parseSongFromText text = none) ∧
    (hasSub hdrTitle text.data = false → parseSongFromText text = none) := by
  have hnone : ∀ (h : titleVal text.data = none ∨ titleVal text.data = some []
      ∨ styleVal text.data = none ∨ styleVal text.data = some []
      ∨ lyricsVal text.data = none ∨ lyricsVal text.data = some []),
      parseSongFromText text = none := by
    intro h
    unfold parseSongFromText
    rw [parseSongL_none_of text.data h]
    rfl
  refine ⟨?_, hnone, ?_⟩
  · intro song hsong
    obtain ⟨p, hp, hconv⟩ := parseSongFromText_some text song hsong
    obtain ⟨h1, h2, h3, _⟩ := parseSongL_fields text.data p hp
    subst hconv
    exact ⟨str_ne_empty_of_data _ h1, str_ne_empty_of_data _ h2,
      str_ne_empty_of_data _ h3⟩
  · intro h
    have hfi : findIdx? hdrTitle text.data = none := by
      cases hf : findIdx? hdrTitle text.data
      · rfl
      · unfold hasSub at h; rw [hf] at h; exact Bool.noConfusion h
    have ht : titleVal text.data = none := by
      unfold titleVal titleCapture afterSub
      rw [hfi]
      rfl
    exact hnone (Or.inl ht)

theorem parse_all_or_nothing_witness :
    hasSub hdrTitle "## Voice:\nMale\n## Tags:\n#Pop\n## Style:\nPop\n## Lyrics:\nLa".data
      = false ∧
    parseSongFromText "## Voice:\nMale\n## Tags:\n#Pop\n## Style:\nPop\n## Lyrics:\nLa"
      = none :=
  ⟨by decide, (parse_all_or_nothing _).2.2 (by decide)⟩

/-! ## C2: tag splitting -/

theorem splitComma_nlToComma (raw : List Char) :
    splitComma (nlToComma raw) = splitDelims raw := by
  induction raw with
  | nil => rfl
  | cons c cs ih =>
    have hc : nlToComma (c :: cs) = (if c == '\n' then ',' else c) :: nlToComma cs := rfl
    rw [hc]
    by_cases h1 : c = '\n'
    · subst h1
      rw [if_pos (show (('\n' : Char) == '\n') = true from rfl)]
      show [] :: splitComma (nlToComma cs) = [] :: splitDelims cs
      rw [ih]
    · by_cases h2 : c = ','
      · subst h2
        rw [if_neg (by decide)]
        show [] :: splitComma (nlToComma cs) = [] :: splitDelims cs
        rw [ih]
      · rw [if_neg (show ¬((c == '\n') = true) from fun hb => h1 (by simpa using hb))]
        show (if c == ',' then [] :: splitComma (nlToComma cs)
              else consHead c (splitComma (nlToComma cs)))
          = (if c == ',' || c == '\n' then [] :: splitDelims cs
              else consHead c (splitDelims cs))
        rw [if_neg (show ¬((c == ',') = true) from fun hb => h2 (by simpa using hb)),
          if_neg (show ¬((c == ',' || c == '\n') = true) from
            fun hb => by simp [beq_iff_eq, h1, h2] at hb),
          ih]

/-- C2.  The tag pipeline (newline-to-comma replace, comma split, trim,
drop empties) is exactly a split on both comma and newline with trimmed
pieces and empties dropped; the documented block splits to the expected
ordered sequence, duplicates survive, the empty block gives the empty
sequence, every produced tag is nonempty, and a full reply carrying that
block parses to those tags. -/
theorem tags_split_spec :
    (∀ raw : List Char, tagsOfL raw = tagSplitSpec raw) ∧
    tagsOfS "#120 BPM, #A Minor\n#House" = ["#120 BPM", "#A Minor", "#House"] ∧
    tagsOfS "#House, #House" = ["#House", "#House"] ∧
    tagsOfS "" = [] ∧
    (∀ raw p, p ∈ tagsOfL raw → p ≠ []) ∧
    (parseSongFromText "## Title: Neon\n\n## Voice:\nMale\n\n## Tags:\n#120 BPM, #A Minor\n#House\n\n## Style:\nDeep House\n\n## Lyrics:\nLa la").map
        ParsedSong.tags
      = some ["#120 BPM", "#A Minor", "#House"] := by
  refine ⟨fun raw => by simp [tagsOfL, tagSplitSpec, splitComma_nlToComma],
    by decide, by decide, by decide, ?_, by decide⟩
  intro raw p hp
  simp only [tagsOfL] at hp
  have hne := List.of_mem_filter hp
  intro hn
  subst hn
  simp at hne

theorem tags_split_spec_witness : "#House".data ≠ [] :=
  tags_split_spec.2.2.2.2.1 "#Pop, #House".data "#House".data (by decide)

/-! ## C3: optional sections -/

/-- C3 (counterexample).  The claim says Voice is the only section whose
header may be absent while the parse succeeds; this reply has neither a
Voice header nor a Tags header and still parses (with the empty tag
sequence), so Tags is a second optional section. -/
theorem voice_only_optional_cex :
    parseSongFromText "## Title: X\n## Style:\nPop\n## Lyrics:\nLa"
      = some ⟨"X", "Not specified", "Pop", [], "La"⟩ ∧
    hasSubS "## Voice:" "## Title: X\n## Style:\nPop\n## Lyrics:\nLa" = false ∧
    hasSubS "## Tags:" "## Title: X\n## Style:\nPop\n## Lyrics:\nLa" = false :=
  ⟨by decide, by decide, by decide⟩

/-- C3 (amended).  A reply without the Voice marker that parses gets the
sentinel "Not specified"; the concrete no-Voice reply with the four
other headers parses that way; but the headers that must be present for
success are exactly Title, Style and Lyrics — the Tags header may also
be absent (the counterexample shows a successful parse without it). -/
theorem voice_optional_amended (text : String) :
    (∀ song, parseSongFromText text = some song → hasSub hdrVoice text.data = false →
      song.voice = "Not specified") ∧
    (∀ song, parseSongFromText text = some song →
      hasSub hdrTitle text.data = true ∧ hasSub hdrStyle text.data = true ∧
      hasSub hdrLyrics text.data = true) ∧
    parseSongFromText "## Title: Gold\n\n## Tags:\n#Pop\n\n## Style:\nPop\n\n## Lyrics:\nNa na"
      = some ⟨"Gold", "Not specified", "Pop", ["#Pop"], "Na na"⟩ ∧
    hasSubS "## Voice:" "## Title: Gold\n\n## Tags:\n#Pop\n\n## Style:\nPop\n\n## Lyrics:\nNa na"
      = false := by
  refine ⟨?_, ?_, by decide, by decide⟩
  · intro song hsong hvoice
    obtain ⟨p, hp, hconv⟩ := parseSongFromText_some text song hsong
    obtain ⟨_, _, _, _, _, _, hvv, _⟩ := parseSongL_fields text.data p hp
    have hfi : findIdx? hdrVoice text.data = none := by
      cases hf : findIdx? hdrVoice text.data
      · rfl
      · unfold hasSub at hvoice; rw [hf] at hvoice; exact Bool.noConfusion hvoice
    have hsec : sectionBlock hdrVoice hdrTags text.data = none := by
      unfold sectionBlock afterSub
      rw [hfi]
      rfl
    have : voiceVal text.data = notSpecified := by
      unfold voiceVal
      rw [hsec]
      rfl
    subst hconv
    show (⟨p.voice⟩ : String) = "Not specified"
    rw [hvv, this]
    rfl
  · intro song hsong
    obtain ⟨p, hp, _⟩ := parseSongFromText_some text song hsong
    obtain ⟨_, _, _, htv, hsv, hlv, _, _⟩ := parseSongL_fields text.data p hp
    have h1 : titleCapture text.data = some p.title ∨ ∃ r, titleCapture text.data = some r := by
      unfold titleVal at htv
      cases hc : titleCapture text.data
      · rw [hc] at htv; exact Option.noConfusion htv
      · exact Or.inr ⟨_, rfl⟩
    have h2 : ∃ r, sectionBlock hdrStyle hdrLyrics text.data = some r := by
      unfold styleVal at hsv
      cases hc : sectionBlock hdrStyle hdrLyrics text.data
      · rw [hc] at hsv; exact Option.noConfusion hsv
      · exact ⟨_, rfl⟩
    have h3 : ∃ r, lyricsCapture text.data = some r := by
      unfold lyricsVal at hlv
      cases hc : lyricsCapture text.data
      · rw [hc] at hlv; exact Option.noConfusion hlv
      · exact ⟨_, rfl⟩
    obtain ⟨r2, hr2⟩ := h2
    obtain ⟨r3, hr3⟩ := h3
    rcases h1 with h1 | ⟨r1, hr1⟩
    · exact ⟨hasSub_title_of_capture h1, hasSub_of_sectionBlock hr2,
        hasSub_of_lyricsCapture hr3⟩
    · exact ⟨hasSub_title_of_capture hr1, hasSub_of_sectionBlock hr2,
        hasSub_of_lyricsCapture hr3⟩

theorem voice_optional_amended_witness :
    (⟨"Gold", "Not specified", "Pop", ["#Pop"], "Na na"⟩ : ParsedSong).voice
      = "Not specified" :=
  (voice_optional_amended
      "## Title: Gold\n\n## Tags:\n#Pop\n\n## Style:\nPop\n\n## Lyrics:\nNa na").1
    ⟨"Gold", "Not specified", "Pop", ["#Pop"], "Na na"⟩ (by decide) (by decide)

/-! ## List scaffolding for the round-trip theorem -/

theorem dropWhile_append_all {p : Char → Bool} {a : List Char} (b : List Char)
    (h : ∀ c ∈ a, p c = true) : (a ++ b).dropWhile p = b.dropWhile p := by
  induction a with
  | nil => rfl
  | cons c cs ih =>
    rw [List.cons_append, List.dropWhile_cons, if_pos (h c (by simp))]
    exact ih (fun x hx => h x (by simp [hx]))

theorem dropWhile_all {p : Char → Bool} {a : List Char}
    (h : ∀ c ∈ a, p c = true) : a.dropWhile p = [] := by
  have := dropWhile_append_all (p := p) (a := a) [] h
  simpa using this

theorem dropWhile_cons_neg {p : Char → Bool} {c : Char} {l : List Char}
    (h : p c = false) : (c :: l).dropWhile p = c :: l := by
  rw [List.dropWhile_cons, if_neg (by simp [h])]

theorem takeWhile_append_all {p : Char → Bool} {a : List Char} (b : List Char)
    (h : ∀ c ∈ a, p c = true) : (a ++ b).takeWhile p = a ++ b.takeWhile p := by
  induction a with
  | nil => rfl
  | cons c cs ih =>
    rw [List.cons_append, List.takeWhile_cons, if_pos (h c (by simp)), List.cons_append,
      ih (fun x hx => h x (by simp [hx]))]

theorem takeWhile_cons_neg {p : Char → Bool} {c : Char} {l : List Char}
    (h : p c = false) : (c :: l).takeWhile p = [] := by
  rw [List.takeWhile_cons, if_neg (by simp [h])]

theorem head_dropWhile {p : Char → Bool} {l r : List Char} {c : Char}
    (h : l.dropWhile p = c :: r) : p c = false := by
  induction l with
  | nil => exact List.noConfusion h
  | cons a as ih =>
    rw [List.dropWhile_cons] at h
    by_cases hp : p a = true
    · rw [if_pos hp] at h; exact ih h
    · rw [if_neg hp] at h
      injection h with h1 _
      subst h1
      simpa [Bool.not_eq_true] using hp

theorem dropWhile_idem {p : Char → Bool} {l : List Char} :
    (l.dropWhile p).dropWhile p = l.dropWhile p := by
  cases h : l.dropWhile p with
  | nil => rfl
  | cons c r => exact dropWhile_cons_neg (head_dropWhile h)

theorem mem_of_mem_dropWhile {p : Char → Bool} {l : List Char} {c : Char}
    (h : c ∈ l.dropWhile p) : c ∈ l := by
  induction l with
  | nil => simpa using h
  | cons a as ih =>
    rw [List.dropWhile_cons] at h
    by_cases ha : p a = true
    · rw [if_pos ha] at h; exact List.mem_cons_of_mem _ (ih h)
    · rwa [if_neg ha] at h

theorem dropWhile_append_split {p : Char → Bool} (x w : List Char) :
    (x ++ w).dropWhile p
      = if (x.dropWhile p).isEmpty then w.dropWhile p else x.dropWhile p ++ w := by
  induction x with
  | nil => rfl
  | cons c cs ih =>
    by_cases hc : p c = true
    · rw [List.cons_append, List.dropWhile_cons, if_pos hc, ih, List.dropWhile_cons,
        if_pos hc]
    · rw [List.cons_append, List.dropWhile_cons, if_neg (by simp [hc]),
        List.dropWhile_cons, if_neg (by simp [hc]), if_neg hc, List.cons_append]

theorem dropWhile_eq_nil_all {p : Char → Bool} {l : List Char}
    (h : l.dropWhile p = []) : ∀ c ∈ l, p c = true := by
  induction l with
  | nil => simp
  | cons a as ih =>
    rw [List.dropWhile_cons] at h
    by_cases ha : p a = true
    · rw [if_pos ha] at h
      intro c hc
      rcases List.mem_cons.mp hc with rfl | hc
      · exact ha
      · exact ih h c hc
    · rw [if_neg ha] at h; exact List.noConfusion h

theorem drop_takeWhile_len {p : Char → Bool} (l : List Char) :
    l.drop (l.takeWhile p).length = l.dropWhile p := by
  induction l with
  | nil => rfl
  | cons c cs ih =>
    by_cases hc : p c = true
    · rw [List.takeWhile_cons, if_pos hc, List.dropWhile_cons, if_pos hc,
        List.length_cons, List.drop_succ_cons, ih]
    · rw [List.takeWhile_cons, if_neg (by simp [hc]), List.dropWhile_cons,
        if_neg (by simp [hc])]
      rfl

theorem drop_len_append (a b : List Char) : (a ++ b).drop a.length = b := by
  induction a with
  | nil => rfl
  | cons c cs ih => simpa using ih

theorem take_len_append (a b : List Char) : (a ++ b).take a.length = a := by
  induction a with
  | nil => rfl
  | cons c cs ih => simpa using ih

theorem drop_add_len (a b : List Char) (k : Nat) :
    (a ++ b).drop (a.length + k) = b.drop k := by
  induction a with
  | nil => simp
  | cons c cs ih => simpa [Nat.succ_add] using ih

theorem drop_append_le {a : List Char} (b : List Char) {i : Nat} (h : i ≤ a.length) :
    (a ++ b).drop i = a.drop i ++ b := by
  induction a generalizing i with
  | nil =>
    have : i = 0 := Nat.le_zero.mp h
    subst this; rfl
  | cons c cs ih =>
    cases i with
    | zero => rfl
    | succ j => simpa using ih (Nat.le_of_succ_le_succ h)

/-! ## Trim lemmas -/

theorem trimL_ltrim (x : List Char) : trimL (ltrim x) = trimL x := by
  unfold trimL
  rw [show ltrim (ltrim x) = ltrim x from dropWhile_idem]

theorem rtrim_append_ws {x w : List Char} (hw : ∀ c ∈ w, jsWhite c = true) :
    rtrim (x ++ w) = rtrim x := by
  unfold rtrim
  rw [List.reverse_append,
    dropWhile_append_all _ (fun c hc => hw c (List.mem_reverse.mp hc))]

theorem trim_append_ws {x w : List Char} (hw : ∀ c ∈ w, jsWhite c = true) :
    trimL (x ++ w) = trimL x := by
  unfold trimL ltrim
  rw [dropWhile_append_split]
  by_cases hx : (x.dropWhile jsWhite).isEmpty = true
  · rw [if_pos hx, dropWhile_all hw]
    have hxe : x.dropWhile jsWhite = [] := by
      cases hd : x.dropWhile jsWhite
      · rfl
      · rw [hd] at hx; exact Bool.noConfusion hx
    rw [hxe]
  · rw [if_neg hx, rtrim_append_ws hw]

theorem trimL_eq_nil_of_ltrim {v : List Char} (h : ltrim v = []) : trimL v = [] := by
  unfold trimL
  rw [h]
  rfl

theorem ltrim_ne_nil_of_trim {t : List Char} (h : trimL t ≠ []) : ltrim t ≠ [] :=
  fun he => h (trimL_eq_nil_of_ltrim he)

theorem isEmpty_false_of_ne_nil {l : List Char} (h : l ≠ []) : l.isEmpty = false := by
  cases l with
  | nil => exact absurd rfl h
  | cons c cs => rfl

/-! ## pfx, occurrence and literal-clash lemmas -/

theorem pfx_append_left {m q z : List Char} (h : pfx (m ++ q) z = true) :
    pfx m z = true := by
  induction m generalizing z with
  | nil => rfl
  | cons a as ih =>
    cases z with
    | nil => exact Bool.noConfusion h
    | cons b bs =>
      rw [List.cons_append] at h
      simp only [pfx, Bool.and_eq_true] at h ⊢
      exact ⟨h.1, ih h.2⟩

theorem clash_not_pfx {pat frag : List Char} (h : clashAt pat frag = true)
    (z : List Char) : pfx pat (frag ++ z) = false := by
  induction pat generalizing frag with
  | nil => cases frag <;> simp [clashAt] at h
  | cons p ps ih =>
    cases frag with
    | nil => simp [clashAt] at h
    | cons f fs =>
      simp only [clashAt, Bool.or_eq_true] at h
      rcases h with h | h
      · have hne : (p == f) = false := by
          cases hpe : p == f
          · rfl
          · rw [bne] at h; rw [hpe] at h; exact Bool.noConfusion h
        simp [pfx, List.cons_append, hne]
      · simp [pfx, List.cons_append, ih h]

theorem litBlocks_noOcc {pat lit : List Char} (h : litBlocks pat lit = true)
    (b : List Char) : noOcc pat lit b := by
  induction lit with
  | nil => intro i hi; simp at hi
  | cons c rest ih =>
    simp only [litBlocks, Bool.and_eq_true] at h
    intro i hi
    cases i with
    | zero => exact clash_not_pfx h.1 b
    | succ j => exact ih h.2 j (Nat.lt_of_succ_lt_succ hi)

theorem noOcc_append {pat x y b : List Char}
    (hx : noOcc pat x (y ++ b)) (hy : noOcc pat y b) : noOcc pat (x ++ y) b := by
  intro i hi
  rw [List.length_append] at hi
  by_cases hix : i < x.length
  · have hh := hx i hix
    rw [drop_append_le y (le_of_lt hix), List.append_assoc]
    exact hh
  · push_neg at hix
    obtain ⟨j, rfl⟩ : ∃ j, i = x.length + j := ⟨i - x.length, by omega⟩
    rw [drop_add_len]
    exact hy j (by omega)

theorem noOcc_of_marker (hdr q a b : List Char) (hq : hdr = mkr ++ q)
    (h : noOcc mkr a b) : noOcc hdr a b := by
  intro i hi
  cases hpp : pfx hdr (a.drop i ++ b)
  · rfl
  · rw [hq] at hpp
    have hm := pfx_append_left hpp
    rw [h i hi] at hm
    exact hm.symm

theorem noMkr_tail {c : Char} {r : List Char} (h : noMkr (c :: r) = true) :
    noMkr r = true := by
  simp only [noMkr, Bool.and_eq_true] at h
  exact h.2

theorem noMkr_dropWhile {p : Char → Bool} {v : List Char} (h : noMkr v = true) :
    noMkr (v.dropWhile p) = true := by
  induction v with
  | nil => exact h
  | cons c cs ih =>
    rw [List.dropWhile_cons]
    by_cases hc : p c = true
    · rw [if_pos hc]; exact ih (noMkr_tail h)
    · rwa [if_neg hc]

theorem noOcc_mkr_clean {f b : List Char} (hf : noMkr f = true)
    (hb : ∃ bs, b = '\n' :: bs) : noOcc mkr f b := by
  obtain ⟨bs, rfl⟩ := hb
  induction f with
  | nil => intro i hi; simp at hi
  | cons c r ih =>
    intro i hi
    cases i with
    | succ j => exact ih (noMkr_tail hf) j (Nat.lt_of_succ_lt_succ hi)
    | zero =>
      show pfx mkr ((c :: r) ++ '\n' :: bs) = false
      cases hpp : pfx mkr ((c :: r) ++ '\n' :: bs)
      · rfl
      · exfalso
        cases r with
        | nil =>
          rw [show ([c] ++ '\n' :: bs) = c :: '\n' :: bs from rfl] at hpp
          simp [mkr, pfx, show (('#' : Char) == '\n') = false from rfl] at hpp
        | cons c2 r2 =>
          cases r2 with
          | nil =>
            rw [show ([c, c2] ++ '\n' :: bs) = c :: c2 :: '\n' :: bs from rfl] at hpp
            simp [mkr, pfx, show ((' ' : Char) == '\n') = false from rfl] at hpp
          | cons c3 r3 =>
            have hfail : pfx mkr (c :: c2 :: c3 :: r3) = false := by
              have hh := hf
              simp only [noMkr, Bool.and_eq_true] at hh
              simpa using hh.1
            rw [show ((c :: c2 :: c3 :: r3) ++ '\n' :: bs)
                = c :: c2 :: c3 :: (r3 ++ '\n' :: bs) from rfl] at hpp
            simp only [mkr, pfx] at hpp hfail
            rw [hfail] at hpp
            exact Bool.noConfusion hpp

theorem noMkr_of_lit {f : List Char} (h : litBlocks mkr f = true) : noMkr f = true := by
  induction f with
  | nil => rfl
  | cons c r ih =>
    simp only [litBlocks, Bool.and_eq_true] at h
    simp only [noMkr, Bool.and_eq_true]
    refine ⟨?_, ih h.2⟩
    have := clash_not_pfx h.1 []
    rw [List.append_nil] at this
    simp [this]

/-! ## findIdx? on structured text -/

theorem findIdx?_shift {pat : List Char} (a b : List Char) (h : noOcc pat a b) :
    findIdx? pat (a ++ b) = (findIdx? pat b).map (· + a.length) := by
  induction a with
  | nil =>
    cases hfb : findIdx? pat b <;> simp [hfb]
  | cons c cs ih =>
    have h0 : pfx pat (c :: (cs ++ b)) = false := by
      have hh := h 0 (by simp)
      simpa using hh
    have hs : noOcc pat cs b := fun j hj => h (j + 1) (by simpa using Nat.succ_lt_succ hj)
    show (if pfx pat (c :: (cs ++ b)) = true then some 0
          else (findIdx? pat (cs ++ b)).map (· + 1)) = _
    rw [if_neg (by simp [h0]), ih hs]
    cases findIdx? pat b <;> simp [Nat.add_assoc]

theorem afterSub_exact (pat a b : List Char) (h : noOcc pat a (pat ++ b)) :
    afterSub pat (a ++ (pat ++ b)) = some b := by
  unfold afterSub
  rw [findIdx?_shift a (pat ++ b) h, findIdx?_of_pfx (pfx_append_self pat b)]
  simp only [Option.map_some', Option.some.injEq]
  rw [Nat.zero_add, show a.length + pat.length = (a ++ pat).length from
    (List.length_append a pat).symm,
    show a ++ (pat ++ b) = (a ++ pat) ++ b from (List.append_assoc a pat b).symm,
    drop_len_append]

theorem upToSub_exact (pat x b : List Char) (h : noOcc pat x (pat ++ b)) :
    upToSub pat (x ++ (pat ++ b)) = some x := by
  unfold upToSub
  rw [findIdx?_shift x (pat ++ b) h, findIdx?_of_pfx (pfx_append_self pat b)]
  simp only [Option.map_some', Option.some.injEq]
  rw [Nat.zero_add, take_len_append]

/-! ## Section extraction over the rendered template -/

theorem goDot_pos {r : List Char} {c : Char} {cs : List Char} (k : Nat)
    (h : r.drop k = c :: cs) (hc : lineTerm c = false) :
    goDot r k = some ((c :: cs).takeWhile (fun x => !lineTerm x)) := by
  cases k with
  | zero =>
    have hr : r = c :: cs := by simpa using h
    subst hr
    simp [goDot, hc]
  | succ j =>
    simp [goDot, h, hc]

theorem titleVal_render (t rest : List Char)
    (htLine : ∀ c ∈ t, lineTerm c = false) (htB : ltrim t ≠ []) :
    titleVal (hdrTitle ++ (' ' :: (t ++ '\n' :: rest))) = some (trimL t) := by
  have hA : afterSub hdrTitle (hdrTitle ++ (' ' :: (t ++ '\n' :: rest)))
      = some (' ' :: (t ++ '\n' :: rest)) := by
    have := afterSub_exact hdrTitle [] (' ' :: (t ++ '\n' :: rest))
      (fun i hi => absurd hi (by simp))
    simpa using this
  unfold titleVal titleCapture
  rw [hA]
  show Option.map trimL
      (goDot (' ' :: (t ++ '\n' :: rest))
        ((' ' :: (t ++ '\n' :: rest)).takeWhile jsWhite).length) = some (trimL t)
  obtain ⟨c, d', hd⟩ : ∃ c d', t.dropWhile jsWhite = c :: d' := by
    cases hlt : t.dropWhile jsWhite
    · exact absurd hlt htB
    · exact ⟨_, _, rfl⟩
  have hcw : jsWhite c = false := head_dropWhile hd
  have hmem : ∀ x ∈ t.dropWhile jsWhite, x ∈ t :=
    fun x hx => mem_of_mem_dropWhile hx
  have hcl : lineTerm c = false :=
    htLine c (hmem c (by rw [hd]; exact List.mem_cons_self c d'))
  have hdropr : (' ' :: (t ++ '\n' :: rest)).drop
      ((' ' :: (t ++ '\n' :: rest)).takeWhile jsWhite).length
      = c :: (d' ++ '\n' :: rest) := by
    rw [drop_takeWhile_len, List.dropWhile_cons,
      if_pos (show jsWhite ' ' = true by decide), dropWhile_append_split,
      if_neg (by rw [hd]; simp), hd]
    rfl
  rw [goDot_pos _ hdropr hcl]
  have hcap : ((c :: (d' ++ '\n' :: rest)).takeWhile (fun x => !lineTerm x))
      = t.dropWhile jsWhite := by
    rw [show (c :: (d' ++ '\n' :: rest)) = (c :: d') ++ '\n' :: rest from rfl,
      takeWhile_append_all _ (fun x hx => by
        have hxt : x ∈ t := hmem x (by rw [hd]; exact hx)
        simp [htLine x hxt]),
      takeWhile_cons_neg (show (!lineTerm '\n') = false by decide), List.append_nil, hd]
  rw [hcap]
  show some (trimL (ltrim t)) = some (trimL t)
  rw [trimL_ltrim]

theorem sectionVal_render (hdr nxt q A v tailT : List Char)
    (hq : nxt = mkr ++ q)
    (hA : noOcc hdr A (hdr ++ ('\n' :: (v ++ '\n' :: '\n' :: (nxt ++ tailT)))))
    (hv : noMkr v = true)
    (hlit : litBlocks nxt ['\n', '\n'] = true) :
    (sectionBlock hdr nxt
        (A ++ (hdr ++ ('\n' :: (v ++ '\n' :: '\n' :: (nxt ++ tailT)))))).map trimL
      = some (trimL v) := by
  unfold sectionBlock
  rw [afterSub_exact hdr A _ hA]
  show Option.map trimL
      (upToSub nxt (('\n' :: (v ++ '\n' :: '\n' :: (nxt ++ tailT))).dropWhile jsWhite))
    = some (trimL v)
  have hw : jsWhite '\n' = true := by decide
  rw [List.dropWhile_cons, if_pos hw,
    show v ++ '\n' :: '\n' :: (nxt ++ tailT) = v ++ (['\n', '\n'] ++ (nxt ++ tailT)) from
      rfl,
    show v ++ (['\n', '\n'] ++ (nxt ++ tailT)) = (v ++ ['\n', '\n']) ++ (nxt ++ tailT) from
      (List.append_assoc v _ _).symm]
  rw [dropWhile_append_split]
  by_cases hd : ((v ++ ['\n', '\n']).dropWhile jsWhite).isEmpty = true
  · -- the field is all whitespace: the capture is empty
    have hkeep : (nxt ++ tailT).dropWhile jsWhite = nxt ++ tailT := by
      rw [hq, show (mkr ++ q) ++ tailT = '#' :: ('#' :: (' ' :: (q ++ tailT))) from by
        simp [mkr]]
      exact dropWhile_cons_neg (by decide)
    rw [if_pos hd, hkeep]
    have hup : upToSub nxt (nxt ++ tailT) = some [] := by
      have := upToSub_exact nxt [] tailT (fun i hi => absurd hi (by simp))
      simpa using this
    rw [hup]
    have hvnil : ltrim v = [] := by
      have hall := dropWhile_eq_nil_all (p := jsWhite) (l := v ++ ['\n', '\n'])
        (by
          cases hdd : (v ++ ['\n', '\n']).dropWhile jsWhite
          · rfl
          · rw [hdd] at hd; exact Bool.noConfusion hd)
      exact dropWhile_all (fun c hc => hall c (by simp [hc]))
    rw [trimL_eq_nil_of_ltrim hvnil]
    rfl
  · -- the field has visible content
    rw [if_neg hd]
    rw [dropWhile_append_split]
    have hdv : ¬(v.dropWhile jsWhite).isEmpty = true := by
      intro hh
      apply hd
      rw [dropWhile_append_split, if_pos hh]
      rfl
    rw [if_neg hdv]
    have hno : noOcc nxt (v.dropWhile jsWhite ++ ['\n', '\n']) (nxt ++ tailT) := by
      refine noOcc_append ?_ (litBlocks_noOcc hlit (nxt ++ tailT))
      exact noOcc_of_marker nxt q _ _ hq
        (noOcc_mkr_clean (noMkr_dropWhile hv) ⟨'\n' :: (nxt ++ tailT), rfl⟩)
    rw [upToSub_exact nxt (v.dropWhile jsWhite ++ ['\n', '\n']) tailT hno]
    simp only [Option.map_some', Option.some.injEq]
    rw [trim_append_ws (by decide)]
    exact trimL_ltrim v

theorem lyricsVal_render (A ly : List Char)
    (hA : noOcc hdrLyrics A (hdrLyrics ++ ('\n' :: ly))) :
    lyricsVal (A ++ (hdrLyrics ++ ('\n' :: ly))) = some (trimL ly) := by
  unfold lyricsVal lyricsCapture
  rw [afterSub_exact hdrLyrics A ('\n' :: ly) hA]
  simp only [Option.map_some', Option.some.injEq]
  rw [List.dropWhile_cons, if_pos (show jsWhite '\n' = true by decide)]
  exact trimL_ltrim ly

/-! ## C4: the round trip -/

/-- C4.  Rendering ParsedSong-shaped fields under the five canonical
headers and parsing the result reproduces every field modulo surrounding
whitespace, with the tags block split on comma and newline.  The
well-formedness side conditions are what the output contract itself
demands of the fields: no field before the final section may contain the
section marker "## " (else it would forge a header boundary), the title
is a single line, and the three gated fields are not blank. -/
theorem parse_render_round_trip (t v tg st ly : List Char)
    (htm : noMkr t = true) (hvm : noMkr v = true) (htgm : noMkr tg = true)
    (hstm : noMkr st = true)
    (htLine : ∀ c ∈ t, lineTerm c = false)
    (htB : trimL t ≠ []) (hstB : trimL st ≠ []) (hlyB : trimL ly ≠ []) :
    parseSongL (renderSongL t v tg st ly)
      = some ⟨trimL t, trimL v, trimL st, tagSplitSpec (trimL tg), trimL ly⟩ := by
  have cTV : "## Title: ".data = hdrTitle ++ [' '] := by decide
  have cV : "\n\n## Voice:\n".data = (['\n', '\n'] ++ (hdrVoice ++ ['\n'])) := by decide
  have cT : "\n\n## Tags:\n".data = (['\n', '\n'] ++ (hdrTags ++ ['\n'])) := by decide
  have cS : "\n\n## Style:\n".data = (['\n', '\n'] ++ (hdrStyle ++ ['\n'])) := by decide
  have cL : "\n\n## Lyrics:\n".data = (['\n', '\n'] ++ (hdrLyrics ++ ['\n'])) := by decide
  have qT : hdrTags = mkr ++ "Tags:".data := by decide
  have qS : hdrStyle = mkr ++ "Style:".data := by decide
  have qL : hdrLyrics = mkr ++ "Lyrics:".data := by decide
  -- Title extraction
  have eTitle : renderSongL t v tg st ly = (hdrTitle ++ (' ' :: (t ++ ('\n' :: ('\n' :: (hdrVoice ++ ('\n' :: (v ++ ('\n' :: ('\n' :: (hdrTags ++ ('\n' :: (tg ++ ('\n' :: ('\n' :: (hdrStyle ++ ('\n' :: (st ++ ('\n' :: ('\n' :: (hdrLyrics ++ ('\n' :: ly)))))))))))))))))))))) := by
    unfold renderSongL
    rw [cTV, cV, cT, cS, cL]
    simp [List.append_assoc]
  have hTv : titleVal (renderSongL t v tg st ly) = some (trimL t) := by
    rw [eTitle]
    exact titleVal_render t _ htLine (ltrim_ne_nil_of_trim htB)
  -- Voice extraction
  have eVoice : renderSongL t v tg st ly = ((hdrTitle ++ [' ']) ++ (t ++ ['\n', '\n'])) ++ (hdrVoice ++ ('\n' :: (v ++ ('\n' :: ('\n' :: (hdrTags ++ ('\n' :: (tg ++ ('\n' :: ('\n' :: (hdrStyle ++ ('\n' :: (st ++ ('\n' :: ('\n' :: (hdrLyrics ++ ('\n' :: ly))))))))))))))))) := by
    unfold renderSongL
    rw [cTV, cV, cT, cS, cL]
    simp [List.append_assoc]
  have hAv : noOcc hdrVoice ((hdrTitle ++ [' ']) ++ (t ++ ['\n', '\n'])) (hdrVoice ++ ('\n' :: (v ++ ('\n' :: ('\n' :: (hdrTags ++ ('\n' :: (tg ++ ('\n' :: ('\n' :: (hdrStyle ++ ('\n' :: (st ++ ('\n' :: ('\n' :: (hdrLyrics ++ ('\n' :: ly))))))))))))))))) := by
    refine noOcc_append (litBlocks_noOcc (by decide) _) (noOcc_append ?_
      (litBlocks_noOcc (by decide) _))
    exact noOcc_of_marker _ "Voice:".data _ _ (by decide)
      (noOcc_mkr_clean htm ⟨_, rfl⟩)
  have hV : (sectionBlock hdrVoice hdrTags (renderSongL t v tg st ly)).map trimL
      = some (trimL v) := by
    rw [eVoice]
    exact sectionVal_render hdrVoice hdrTags "Tags:".data _ v _ qT hAv hvm (by decide)
  -- Tags extraction
  have eTags : renderSongL t v tg st ly = ((hdrTitle ++ [' ']) ++ (t ++ ((['\n', '\n'] ++ (hdrVoice ++ ['\n'])) ++ (v ++ ['\n', '\n'])))) ++ (hdrTags ++ ('\n' :: (tg ++ ('\n' :: ('\n' :: (hdrStyle ++ ('\n' :: (st ++ ('\n' :: ('\n' :: (hdrLyrics ++ ('\n' :: ly)))))))))))) := by
    unfold renderSongL
    rw [cTV, cV, cT, cS, cL]
    simp [List.append_assoc]
  have hAtg : noOcc hdrTags ((hdrTitle ++ [' ']) ++ (t ++ ((['\n', '\n'] ++ (hdrVoice ++ ['\n'])) ++ (v ++ ['\n', '\n'])))) (hdrTags ++ ('\n' :: (tg ++ ('\n' :: ('\n' :: (hdrStyle ++ ('\n' :: (st ++ ('\n' :: ('\n' :: (hdrLyrics ++ ('\n' :: ly)))))))))))) := by
    refine noOcc_append (litBlocks_noOcc (by decide) _) (noOcc_append ?_
      (noOcc_append (litBlocks_noOcc (by decide) _) (noOcc_append ?_
        (litBlocks_noOcc (by decide) _))))
    · exact noOcc_of_marker _ "Tags:".data _ _ qT (noOcc_mkr_clean htm ⟨_, rfl⟩)
    · exact noOcc_of_marker _ "Tags:".data _ _ qT (noOcc_mkr_clean hvm ⟨_, rfl⟩)
  have hTg : (sectionBlock hdrTags hdrStyle (renderSongL t v tg st ly)).map trimL
      = some (trimL tg) := by
    rw [eTags]
    exact sectionVal_render hdrTags hdrStyle "Style:".data _ tg _ qS hAtg htgm
      (by decide)
  -- Style extraction
  have eStyle : renderSongL t v tg st ly = ((hdrTitle ++ [' ']) ++ (t ++ ((['\n', '\n'] ++ (hdrVoice ++ ['\n'])) ++ (v ++ ((['\n', '\n'] ++ (hdrTags ++ ['\n'])) ++ (tg ++ ['\n', '\n'])))))) ++ (hdrStyle ++ ('\n' :: (st ++ ('\n' :: ('\n' :: (hdrLyrics ++ ('\n' :: ly))))))) := by
    unfold renderSongL
    rw [cTV, cV, cT, cS, cL]
    simp [List.append_assoc]
  have hAst : noOcc hdrStyle ((hdrTitle ++ [' ']) ++ (t ++ ((['\n', '\n'] ++ (hdrVoice ++ ['\n'])) ++ (v ++ ((['\n', '\n'] ++ (hdrTags ++ ['\n'])) ++ (tg ++ ['\n', '\n'])))))) (hdrStyle ++ ('\n' :: (st ++ ('\n' :: ('\n' :: (hdrLyrics ++ ('\n' :: ly))))))) := by
    refine noOcc_append (litBlocks_noOcc (by decide) _) (noOcc_append ?_
      (noOcc_append (litBlocks_noOcc (by decide) _) (noOcc_append ?_
        (noOcc_append (litBlocks_noOcc (by decide) _) (noOcc_append ?_
          (litBlocks_noOcc (by decide) _))))))
    · exact noOcc_of_marker _ "Style:".data _ _ qS (noOcc_mkr_clean htm ⟨_, rfl⟩)
    · exact noOcc_of_marker _ "Style:".data _ _ qS (noOcc_mkr_clean hvm ⟨_, rfl⟩)
    · exact noOcc_of_marker _ "Style:".data _ _ qS (noOcc_mkr_clean htgm ⟨_, rfl⟩)
  have hSt : (sectionBlock hdrStyle hdrLyrics (renderSongL t v tg st ly)).map trimL
      = some (trimL st) := by
    rw [eStyle]
    exact sectionVal_render hdrStyle hdrLyrics "Lyrics:".data _ st _ qL hAst hstm
      (by decide)
  -- Lyrics extraction
  have eLyrics : renderSongL t v tg st ly = ((hdrTitle ++ [' ']) ++ (t ++ ((['\n', '\n'] ++ (hdrVoice ++ ['\n'])) ++ (v ++ ((['\n', '\n'] ++ (hdrTags ++ ['\n'])) ++ (tg ++ ((['\n', '\n'] ++ (hdrStyle ++ ['\n'])) ++ (st ++ ['\n', '\n'])))))))) ++ (hdrLyrics ++ ('\n' :: ly)) := by
    unfold renderSongL
    rw [cTV, cV, cT, cS, cL]
    simp [List.append_assoc]
  have hAly : noOcc hdrLyrics ((hdrTitle ++ [' ']) ++ (t ++ ((['\n', '\n'] ++ (hdrVoice ++ ['\n'])) ++ (v ++ ((['\n', '\n'] ++ (hdrTags ++ ['\n'])) ++ (tg ++ ((['\n', '\n'] ++ (hdrStyle ++ ['\n'])) ++ (st ++ ['\n', '\n'])))))))) (hdrLyrics ++ ('\n' :: ly)) := by
    refine noOcc_append (litBlocks_noOcc (by decide) _) (noOcc_append ?_
      (noOcc_append (litBlocks_noOcc (by decide) _) (noOcc_append ?_
        (noOcc_append (litBlocks_noOcc (by decide) _) (noOcc_append ?_
          (noOcc_append (litBlocks_noOcc (by decide) _) (noOcc_append ?_
            (litBlocks_noOcc (by decide) _))))))))
    · exact noOcc_of_marker _ "Lyrics:".data _ _ qL (noOcc_mkr_clean htm ⟨_, rfl⟩)
    · exact noOcc_of_marker _ "Lyrics:".data _ _ qL (noOcc_mkr_clean hvm ⟨_, rfl⟩)
    · exact noOcc_of_marker _ "Lyrics:".data _ _ qL (noOcc_mkr_clean htgm ⟨_, rfl⟩)
    · exact noOcc_of_marker _ "Lyrics:".data _ _ qL (noOcc_mkr_clean hstm ⟨_, rfl⟩)
  have hLy : lyricsVal (renderSongL t v tg st ly) = some (trimL ly) := by
    rw [eLyrics]
    exact lyricsVal_render _ ly hAly
  -- assembly
  have hStv : styleVal (renderSongL t v tg st ly) = some (trimL st) := hSt
  have hVv : voiceVal (renderSongL t v tg st ly) = trimL v := by
    unfold voiceVal
    rw [hV]
    rfl
  have hTgv : rawTagsVal (renderSongL t v tg st ly) = some (trimL tg) := hTg
  have hTags : (rawTagsVal (renderSongL t v tg st ly)).elim [] tagsOfL
      = tagSplitSpec (trimL tg) := by
    rw [hTgv]
    show tagsOfL (trimL tg) = tagSplitSpec (trimL tg)
    simp [tagsOfL, tagSplitSpec, splitComma_nlToComma]
  unfold parseSongL
  rw [hTv, hStv, hLy]
  show (if (trimL t).isEmpty || (trimL st).isEmpty || (trimL ly).isEmpty then none
      else some ({ title := trimL t, voice := voiceVal (renderSongL t v tg st ly),
                   style := trimL st,
                   tags := (rawTagsVal (renderSongL t v tg st ly)).elim [] tagsOfL,
                   lyrics := trimL ly } : ParsedSongL))
    = some (⟨trimL t, trimL v, trimL st, tagSplitSpec (trimL tg), trimL ly⟩ : ParsedSongL)
  rw [if_neg (by simp [isEmpty_false_of_ne_nil htB, isEmpty_false_of_ne_nil hstB,
    isEmpty_false_of_ne_nil hlyB]), hVv, hTags]

theorem parse_render_round_trip_witness :
    parseSongL (renderSongL "Neon Skies".data "Male, Gritty Tenor".data
        "#120 BPM, #A Minor\n#House".data "Deep House, Analog warmth".data
        "[Verse]\nCity lights".data)
      = some ⟨trimL "Neon Skies".data, trimL "Male, Gritty Tenor".data,
          trimL "Deep House, Analog warmth".data,
          tagSplitSpec (trimL "#120 BPM, #A Minor\n#House".data),
          trimL "[Verse]\nCity lights".data⟩ :=
  parse_render_round_trip _ _ _ _ _ (by decide) (by decide) (by decide) (by decide)
    (by decide) (by decide) (by decide) (by decide)

end Sumini
